import Mathlib

/-!
Verification of the xcanalyzer project model: a shallow embedding of
`xcanalyzer/xcodeproject/models.py` and of the analysis loops of
`xcanalyzer/xcodeproject/generators.py`, together with theorems settling the
specification claims about them.

Python sets are represented as Lean `List`s: set iteration order in Python is
arbitrary, and every property proved below is either membership-based (hence
order-independent) or explicitly quantified over permutations.  Python set
operations on `XcFile` values compare by `XcFile.__eq__`, i.e. by `filepath`
alone; the helpers `fmem`, `funion` and `fdiff` implement exactly that
semantics.
-/

namespace XcAnalyzer

/-! ### String helpers, modelling the Python `str` operations used by the code.
They operate on `String.data` (the underlying character list) so that all
concrete instances evaluate inside the kernel. -/

/-- Models Python `s.endswith(suf)`. -/
def strEndsWith (s suf : String) : Bool :=
  suf.data.isSuffixOf s.data

/-- Models Python `s.split('/')[-1]`: the characters after the last `/`. -/
def lastComponent (s : String) : String :=
  ⟨s.data.foldl (fun acc c => if c = '/' then [] else acc ++ [c]) []⟩

/-- Models Python `s[:-2]` (drop the final two characters). -/
def dropLast2 (s : String) : String :=
  ⟨s.data.dropLast.dropLast⟩

/-- Code-point comparison of characters, as Python compares strings. -/
def charLt (a b : Char) : Bool := a.val < b.val

/-- Lexicographic strict order on character lists (Python string `<`). -/
def charsLt : List Char → List Char → Bool
  | [], [] => false
  | [], _ :: _ => true
  | _ :: _, [] => false
  | a :: as, b :: bs => if a = b then charsLt as bs else charLt a b

/-- Python string `<=`, used by `list.sort()` on strings. -/
def strLeB (a b : String) : Bool := a == b || charsLt a.data b.data

/-- Insertion step of an insertion sort: models the effect of Python
`list.sort()` on a list of strings (the result is sorted; individual claims
only use membership, which is order-independent). -/
def insertStr (s : String) : List String → List String
  | [] => [s]
  | t :: ts => if strLeB s t then s :: t :: ts else t :: insertStr s ts

/-- Models Python `list.sort()` on a list of strings. -/
def sortStrings (l : List String) : List String := l.foldr insertStr []

/-! ### The language model.

Modelled from the spec: the language module (`xcanalyzer.language.models`,
imported by `models.py` but not under `src/`) defines the declaration kinds and
the extension scopes.  Spec §3: a Declaration has a name and a kind drawn from a
language-specific enumeration — class/struct/enum/protocol/extension for the
Swift-like language, class/category/enum/constant/protocol for the
Objective-C-like language — and `ExtensionScope` is exactly one of file-scoped,
project-scoped-same-language, project-scoped-other-language, outer-scoped.
The scope constant names `FILE`, `PROJECT_OBJC`, `PROJECT_SWIFT`, `OUTER` are
the ones used by `models.py` itself. -/

/-- Modelled from the spec: Swift declaration kinds. -/
inductive SwiftTypeType where
  | CLASS
  | STRUCT
  | ENUM
  | PROTOCOL
  | EXTENSION
deriving DecidableEq

/-- Modelled from the spec: `SwiftTypeType.ALL`, the set of all Swift kinds. -/
def SwiftTypeType.ALL : List SwiftTypeType :=
  [.CLASS, .STRUCT, .ENUM, .PROTOCOL, .EXTENSION]

/-- Modelled from the spec: Objective-C declaration kinds. -/
inductive ObjcTypeType where
  | CLASS
  | CATEGORY
  | ENUM
  | CONSTANT
  | PROTOCOL
deriving DecidableEq

/-- Modelled from the spec: `ObjcTypeType.ALL`. -/
def ObjcTypeType.ALL : List ObjcTypeType :=
  [.CLASS, .CATEGORY, .ENUM, .CONSTANT, .PROTOCOL]

/-- The four extension scopes (constants referenced by `models.py`). -/
inductive SwiftExtensionScope where
  | FILE
  | PROJECT_OBJC
  | PROJECT_SWIFT
  | OUTER
deriving DecidableEq

/-- Modelled from the spec: a Swift declaration (name and kind; the owning file
is represented by membership in an `XcFile`'s `swift_types` list). -/
structure SwiftType where
  name : String
  type_identifier : SwiftTypeType
deriving DecidableEq

/-- Modelled from the spec: an Objective-C declaration. -/
structure ObjcType where
  name : String
  type_identifier : ObjcTypeType
deriving DecidableEq

/-! ### `XcFile` (models.py lines 4-31). -/

/-- `XcFile`: a file reference.  The lazily attached declaration lists
(`None` until a parser fills them) are modelled as plain lists, which is the
state in which every query below reads them. -/
structure XcFile where
  filepath : String
  swift_types : List SwiftType
  objc_types : List ObjcType
deriving DecidableEq

/-- `XcFile.__eq__`: comparison by `filepath` alone. -/
def XcFile.pyEq (f g : XcFile) : Bool := f.filepath == g.filepath

/-- `XcFile.__hash__`: `hash(self.filepath)`. -/
def XcFile.pyHash (f : XcFile) : UInt64 := hash f.filepath

/-- `XcFile.filename`: `self.filepath.split('/')[-1]`. -/
def XcFile.filename (f : XcFile) : String := lastComponent f.filepath

/-- `XcFile.swift_types_filtered(type_not_in)`. -/
def XcFile.swift_types_filtered (f : XcFile) (type_not_in : List SwiftTypeType) :
    List SwiftType :=
  f.swift_types.filter (fun t => decide (t.type_identifier ∉ type_not_in))

/-- `XcFile.swift_extensions`. -/
def XcFile.swift_extensions (f : XcFile) : List SwiftType :=
  f.swift_types.filter (fun t => decide (t.type_identifier = SwiftTypeType.EXTENSION))

/-! ### Python sets of `XcFile`.

A Python `set` of `XcFile` compares members with `XcFile.__eq__`/`__hash__`,
i.e. by `filepath`.  `fmem` is `in`, `funion` is `|`, `fdiff` is `-`. -/

/-- Membership in a Python set/list of files (`XcFile.__eq__` semantics). -/
def fmem (f : XcFile) (l : List XcFile) : Bool :=
  l.any (fun g => g.filepath == f.filepath)

/-- Python set union `l1 | l2` on files: members of `l1` not already present
(by filepath) are added. -/
def funion (l1 l2 : List XcFile) : List XcFile :=
  l1.foldr (fun f acc => if fmem f acc then acc else f :: acc) l2

/-- Python set difference `l1 - l2` on files. -/
def fdiff (l1 l2 : List XcFile) : List XcFile :=
  l1.filter (fun f => !(fmem f l2))

/-! ### `XcGroup` (models.py lines 34-61). -/

/-- `XcGroup`: a hierarchical group.  Child groups are a list, so this
inductive type models the tree-shaped object graphs the builder produces; the
raw reference-based heap (where accidental cycles are expressible) is modelled
separately by `GroupGraph` below. -/
inductive XcGroup where
  | mk (group_path : String) (filepath : String) (is_project_relative : Bool)
      (groups : List XcGroup) (files : List XcFile) (is_variant : Bool)

/-- Child groups of a group. -/
def XcGroup.groups : XcGroup → List XcGroup
  | .mk _ _ _ gs _ _ => gs

/-- Files directly owned by a group. -/
def XcGroup.files : XcGroup → List XcFile
  | .mk _ _ _ _ fs _ => fs

mutual

/-- All files reachable from a group through child-group edges: the value the
worklist loop of `XcProject.group_files` computes on a tree-shaped group graph
(the loop itself, including its behaviour on cyclic heaps, is analysed below
via `group_files_loop`).  Set union is modelled as concatenation; every use is
membership-based. -/
def XcGroup.allFiles : XcGroup → List XcFile
  | .mk _ _ _ gs fs _ => fs ++ XcGroup.allFilesList gs

/-- `allFiles` over a list of groups. -/
def XcGroup.allFilesList : List XcGroup → List XcFile
  | [] => []
  | g :: gs => XcGroup.allFiles g ++ XcGroup.allFilesList gs

end

/-! ### `XcTarget` (models.py lines 326-402). -/

/-- `XcTarget`.  The three dependency-edge sets (`dependencies`,
`linked_frameworks`, `embed_frameworks`) are omitted from the embedding: no
verified claim mentions them and no query below reads them.  `type` is the
Python string constant from `XcTarget.Type`. -/
structure XcTarget where
  name : String
  type : String
  product_name : String
  source_files : List XcFile
  resource_files : List XcFile
  header_files : List XcFile
  linked_files : List XcFile
deriving DecidableEq

/-- `XcTarget.__eq__`/`__hash__` identity: the `(type, name)` pair. -/
def XcTarget.pyKey (t : XcTarget) : String × String := (t.type, t.name)

/-- `XcTarget.files`: `source_files | resource_files | header_files |
linked_files`. -/
def XcTarget.files (t : XcTarget) : List XcFile :=
  funion (funion (funion t.source_files t.resource_files) t.header_files)
    t.linked_files

/-- `XcTarget.swift_files`. -/
def XcTarget.swift_files (t : XcTarget) : List XcFile :=
  t.source_files.filter (fun f => strEndsWith f.filepath ".swift")

/-- `XcTarget.h_files`. -/
def XcTarget.h_files (t : XcTarget) : List XcFile :=
  t.header_files.filter (fun f => strEndsWith f.filepath ".h")

/-- `XcTarget.m_files`. -/
def XcTarget.m_files (t : XcTarget) : List XcFile :=
  t.source_files.filter (fun f => strEndsWith f.filepath ".m")

/-- `XcTarget.objc_files`: `h_files | m_files`. -/
def XcTarget.objc_files (t : XcTarget) : List XcFile :=
  funion t.h_files t.m_files

/-! ### `XcProject` (models.py lines 64-323). -/

/-- `XcProject`: the aggregate root. -/
structure XcProject where
  dirpath : String
  name : String
  targets : List XcTarget
  groups : List XcGroup
  root_files : List XcFile

/-- Insertion step for sorting targets by name (`sorted(..., key=lambda t:
t.name)`). -/
def insertTargetByName (t : XcTarget) : List XcTarget → List XcTarget
  | [] => [t]
  | u :: us => if strLeB t.name u.name then t :: u :: us else u :: insertTargetByName t us

/-- `XcProject.targets_sorted_by_name`. -/
def XcProject.targets_sorted_by_name (p : XcProject) : List XcTarget :=
  p.targets.foldr insertTargetByName []

/-- `XcProject.target_files`: the union of all targets' files. -/
def XcProject.target_files (p : XcProject) : List XcFile :=
  p.targets.foldl (fun results t => funion results t.files) []

/-- `XcProject.group_files`: the files reachable through the group tree (the
worklist loop of models.py lines 109-120, evaluated on the tree model; see
`group_files_loop` for the loop itself). -/
def XcProject.group_files (p : XcProject) : List XcFile :=
  XcGroup.allFilesList p.groups

/-- `XcProject.files`: `root_files | group_files`. -/
def XcProject.files (p : XcProject) : List XcFile :=
  funion p.root_files p.group_files

/-- `XcProject.target_less_files`: `files - target_files`. -/
def XcProject.target_less_files (p : XcProject) : List XcFile :=
  fdiff p.files p.target_files

/-- `XcProject.target_less_h_files`. -/
def XcProject.target_less_h_files (p : XcProject) : List XcFile :=
  p.target_less_files.filter (fun f => strEndsWith f.filepath ".h")

/-- `XcProject.objc_files`: union of the sorted targets' objc files, plus the
target-less `.h` files. -/
def XcProject.objc_files (p : XcProject) : List XcFile :=
  funion (p.targets_sorted_by_name.foldl (fun results t => funion results t.objc_files) [])
    p.target_less_h_files

/-- `XcProject.objc_types`: concatenation of the objc declarations of
`objc_files`. -/
def XcProject.objc_types (p : XcProject) : List ObjcType :=
  p.objc_files.foldl (fun results f => results ++ f.objc_types) []

/-- `XcProject.swift_files`: union of all targets' swift files. -/
def XcProject.swift_files (p : XcProject) : List XcFile :=
  p.targets_sorted_by_name.foldl (fun results t => funion results t.swift_files) []

/-- `XcProject.swift_types`. -/
def XcProject.swift_types (p : XcProject) : List SwiftType :=
  p.swift_files.foldl (fun results f => results ++ f.swift_types) []

/-- Appending a declaration to its kind's entry of the grouped-results
dictionary (`grouped_results[swift_type.type_identifier].append(...)`). -/
def addToGroup (acc : List (SwiftTypeType × List SwiftType)) (st : SwiftType) :
    List (SwiftTypeType × List SwiftType) :=
  acc.map (fun kv => if kv.1 = st.type_identifier then (kv.1, kv.2 ++ [st]) else kv)

/-- `XcProject.swift_types_filtered(type_in, type_not_in)` (grouped result,
`flat=False`).  The dictionary is modelled as an association list whose keys
are the selected kinds; the two `assert issubset` guards of the source hold
vacuously here since every kind is in `SwiftTypeType.ALL`. -/
def XcProject.swift_types_filtered (p : XcProject)
    (type_in type_not_in : List SwiftTypeType) :
    List (SwiftTypeType × List SwiftType) :=
  -- `type_not_in` has priority
  let types := if type_not_in ≠ [] then
      SwiftTypeType.ALL.filter (fun t => decide (t ∉ type_not_in))
    else type_in
  let init := types.map (fun tt => (tt, ([] : List SwiftType)))
  p.swift_types.foldl
    (fun acc st => if st.type_identifier ∈ types then addToGroup acc st else acc)
    init

/-- `XcProject.swift_types_filtered(..., flat=True)`. -/
def XcProject.swift_types_filtered_flat (p : XcProject)
    (type_in type_not_in : List SwiftTypeType) : List SwiftType :=
  ((p.swift_types_filtered type_in type_not_in).map Prod.snd).flatten

/-- Rule 1 of the classifier: the owning file contains a non-extension
declaration with the extended name (models.py lines 292-294). -/
def fileScopedCond (f : XcFile) (e : SwiftType) : Bool :=
  decide (e.name ∈ (f.swift_types_filtered [SwiftTypeType.EXTENSION]).map SwiftType.name)

/-- First pass of `XcProject.swift_extensions_grouped_by_scope` (models.py
lines 286-297): the nested loops over the swift files and their extensions
append each extension either to `file_scoped_extensions` (component 1) or to
`remaining_extensions` (component 2). -/
def scopePass1 (p : XcProject) : List SwiftType × List SwiftType :=
  p.swift_files.foldl (fun acc f =>
      f.swift_extensions.foldl (fun acc e =>
        if fileScopedCond f e then (acc.1 ++ [e], acc.2) else (acc.1, acc.2 ++ [e]))
        acc)
    ([], [])

/-- `objc_type_names` (models.py line 300). -/
def objc_type_names (p : XcProject) : List String :=
  p.objc_types.map ObjcType.name

/-- `swift_type_names` (models.py line 301). -/
def swift_type_names (p : XcProject) : List String :=
  (p.swift_types_filtered_flat SwiftTypeType.ALL [SwiftTypeType.EXTENSION]).map SwiftType.name

/-- Second pass (models.py lines 303-316): `remaining_extensions.reverse()`
followed by pop-from-the-end processes the remaining extensions in their
original order — a left fold — appending each to the objc (component 1), swift
(component 2.1) or outer (component 2.2) bucket. -/
def scopePass2 (p : XcProject) : List SwiftType × List SwiftType × List SwiftType :=
  (scopePass1 p).2.foldl (fun acc e =>
      if decide (e.name ∈ objc_type_names p) then (acc.1 ++ [e], acc.2.1, acc.2.2)
      else if decide (e.name ∈ swift_type_names p) then (acc.1, acc.2.1 ++ [e], acc.2.2)
      else (acc.1, acc.2.1, acc.2.2 ++ [e]))
    ([], [], [])

/-- `XcProject.swift_extensions_grouped_by_scope` (models.py lines 284-323):
the returned dictionary, as a function from scope to bucket. -/
def XcProject.swift_extensions_grouped_by_scope (p : XcProject) :
    SwiftExtensionScope → List SwiftType
  | .FILE => (scopePass1 p).1
  | .PROJECT_OBJC => (scopePass2 p).1
  | .PROJECT_SWIFT => (scopePass2 p).2.1
  | .OUTER => (scopePass2 p).2.2

/-- The classifier's per-extension decision rule, read off the spec's paragraph 4.4
rules 1-4 (file > other-language project > same-language project > outer):
the reference against which the grouping is verified. -/
def classifierRuleScope (p : XcProject) (f : XcFile) (e : SwiftType) :
    SwiftExtensionScope :=
  if fileScopedCond f e then .FILE
  else if decide (e.name ∈ objc_type_names p) then .PROJECT_OBJC
  else if decide (e.name ∈ swift_type_names p) then .PROJECT_SWIFT
  else .OUTER

/-- Modelled from the spec (claim C5's reading of rule 2): the names of
Objective-C declarations appearing anywhere in the project's files, including
files owned by no target. -/
def objcNamesAnywhere (p : XcProject) : List String :=
  p.files.flatMap (fun f => f.objc_types.map ObjcType.name)

/-! ### The `group_files` worklist loop on the raw object heap.

Python `XcGroup` objects hold references to their children, so the heap can —
accidentally — contain a group reachable from itself.  `GroupGraph` models that
heap: nodes are identifiers, `children` gives the child references and
`gfiles` the filepaths directly owned.  `group_files_loop` is the loop of
models.py lines 109-120 with an explicit step budget: `groups.pop()` takes the
last element of the Python list and `groups += group.groups` appends, which is
a stack; the worklist below keeps the top of that stack at its head, so a pop
is the head and a push prepends the children reversed. -/

/-- A reference-based group heap. -/
structure GroupGraph where
  children : Nat → List Nat
  gfiles : Nat → List String

/-- The worklist loop of `XcProject.group_files`, with a step budget: `none`
means the budget was exhausted before the worklist emptied. -/
def group_files_loop (G : GroupGraph) : Nat → List Nat → List String → Option (List String)
  | _, [], acc => some acc
  | 0, _ :: _, _ => none
  | fuel + 1, g :: rest, acc =>
      group_files_loop G fuel ((G.children g).reverse ++ rest) (acc ++ G.gfiles g)

/-- Reachability through child-group edges. -/
inductive Reaches (G : GroupGraph) : Nat → Nat → Prop where
  | refl (n : Nat) : Reaches G n n
  | step {m c n : Nat} : c ∈ G.children m → Reaches G c n → Reaches G m n

/-! ### The duplicate/missing objc file-pair detection
(`XcProjReporter.print_missing_objc_files`, generators.py lines 643-690). -/

/-- The four accumulators of the detection loop (Python sets of basenames). -/
structure MissingObjcState where
  duplicate_h_file_names : List String
  duplicate_m_file_names : List String
  h_file_names : List String
  m_file_names : List String

/-- One iteration of the detection loop over `objc_files`. -/
def missing_objc_step (st : MissingObjcState) (objc_file : XcFile) : MissingObjcState :=
  let filename := lastComponent objc_file.filepath
  let base_filename := dropLast2 filename
  let st1 :=
    if strEndsWith filename ".h" then
      { st with
        duplicate_h_file_names :=
          if base_filename ∈ st.h_file_names then
            st.duplicate_h_file_names.insert base_filename
          else st.duplicate_h_file_names,
        h_file_names := st.h_file_names.insert base_filename }
    else st
  if strEndsWith filename ".m" then
    { st1 with
      duplicate_m_file_names :=
        if base_filename ∈ st1.m_file_names then
          st1.duplicate_m_file_names.insert base_filename
        else st1.duplicate_m_file_names,
      m_file_names := st1.m_file_names.insert base_filename }
  else st1

/-- The full detection: fed the project's objc files in some visiting order, it
returns the sorted duplicate `.h` names, duplicate `.m` names, missing `.h`
names (`m_file_names - h_file_names`) and missing `.m` names
(`h_file_names - m_file_names`). -/
def missing_objc_analysis (files : List XcFile) :
    List String × List String × List String × List String :=
  let st := files.foldl missing_objc_step ⟨[], [], [], []⟩
  (sortStrings st.duplicate_h_file_names,
   sortStrings st.duplicate_m_file_names,
   sortStrings (st.m_file_names.filter (fun b => decide (b ∉ st.h_file_names))),
   sortStrings (st.h_file_names.filter (fun b => decide (b ∉ st.m_file_names))))

/-! ### The shared-files query (`XcProjReporter.print_shared_files`,
generators.py lines 375-398).

The Python dictionary is keyed by `XcFile`, whose `__hash__`/`__eq__` are the
filepath, so the association list below is keyed by filepath; the values are
Python sets of targets, whose identity is the `(type, name)` pair, so the
entries store those keys with set-insertion. -/

/-- Adding one `(file, target)` ownership fact to the dictionary. -/
def addFileOwner (m : List (String × List (String × String)))
    (path : String) (k : String × String) : List (String × List (String × String)) :=
  if m.any (fun kv => kv.1 == path) then
    m.map (fun kv => if kv.1 == path then (kv.1, kv.2.insert k) else kv)
  else m ++ [(path, [k])]

/-- The `file_targets` dictionary built by the double loop over targets and
their files. -/
def file_targets_map (targets : List XcTarget) : List (String × List (String × String)) :=
  targets.foldl (fun m t => t.files.foldl (fun m f => addFileOwner m f.filepath t.pyKey) m) []

/-- The sorted filepaths the shared-files query reports: those owned by at
least two distinct targets. -/
def shared_filepaths (p : XcProject) : List String :=
  sortStrings (((file_targets_map p.targets).filter (fun kv => 2 ≤ kv.2.length)).map Prod.fst)

/-- The spec-side ownership notion of claim C8: the target has a file with the
given path in one of its four buckets. -/
def ownsPath (t : XcTarget) (path : String) : Prop :=
  ∃ f, (f ∈ t.source_files ∨ f ∈ t.resource_files ∨ f ∈ t.header_files ∨ f ∈ t.linked_files)
    ∧ f.filepath = path

/-! ## Lemmas about the Python-set helpers -/

theorem fmem_iff {f : XcFile} {l : List XcFile} :
    fmem f l = true ↔ ∃ g ∈ l, g.filepath = f.filepath := by
  simp [fmem, List.any_eq_true, beq_iff_eq]

theorem fmem_congr {a b : XcFile} (h : a.filepath = b.filepath) (l : List XcFile) :
    fmem a l = fmem b l := by
  simp [fmem, h]

theorem fmem_of_mem {f : XcFile} {l : List XcFile} (h : f ∈ l) : fmem f l = true :=
  fmem_iff.mpr ⟨f, h, rfl⟩

theorem fmem_funion {x : XcFile} (a b : List XcFile) :
    fmem x (funion a b) = (fmem x a || fmem x b) := by
  induction a with
  | nil => simp [funion, fmem]
  | cons f a ih =>
    have hstep : funion (f :: a) b =
        if fmem f (funion a b) then funion a b else f :: funion a b := rfl
    have hcons : fmem x (f :: a) = ((f.filepath == x.filepath) || fmem x a) := by
      simp [fmem]
    by_cases h : fmem f (funion a b) = true
    · rw [hstep, if_pos h, ih, hcons]
      by_cases hp : f.filepath = x.filepath
      · have hx : (fmem x a || fmem x b) = true := by
          rw [← ih, ← fmem_congr hp, h]
        simp [hp, hx]
      · have hb : (f.filepath == x.filepath) = false := by
          simpa using hp
        rw [hb, Bool.false_or]
    · rw [hstep, if_neg h]
      have hc : fmem x (f :: funion a b) =
          ((f.filepath == x.filepath) || fmem x (funion a b)) := by
        simp [fmem]
      rw [hc, ih, hcons, Bool.or_assoc]

theorem mem_of_mem_funion {x : XcFile} {a b : List XcFile} (h : x ∈ funion a b) :
    x ∈ a ∨ x ∈ b := by
  induction a with
  | nil => exact Or.inr h
  | cons f a ih =>
    have hstep : funion (f :: a) b =
        if fmem f (funion a b) then funion a b else f :: funion a b := rfl
    rw [hstep] at h
    by_cases hf : fmem f (funion a b) = true
    · rw [if_pos hf] at h
      rcases ih h with h1 | h1
      · exact Or.inl (List.mem_cons_of_mem _ h1)
      · exact Or.inr h1
    · rw [if_neg hf] at h
      rcases List.mem_cons.mp h with rfl | h1
      · exact Or.inl (List.mem_cons_self _ _)
      · rcases ih h1 with h2 | h2
        · exact Or.inl (List.mem_cons_of_mem _ h2)
        · exact Or.inr h2

theorem fmem_fdiff {x : XcFile} (a b : List XcFile) :
    fmem x (fdiff a b) = (fmem x a && !fmem x b) := by
  by_cases hb : fmem x b = true
  · rw [hb]
    simp only [Bool.not_true, Bool.and_false]
    rw [← Bool.not_eq_true]
    intro hc
    rcases fmem_iff.mp hc with ⟨g, hg, hgp⟩
    rcases List.mem_filter.mp hg with ⟨_, hq⟩
    rw [fmem_congr hgp b, hb] at hq
    simp at hq
  · rw [Bool.not_eq_true] at hb
    rw [hb]
    simp only [Bool.not_false, Bool.and_true]
    rcases hma : fmem x a with _ | _
    · rw [← Bool.not_eq_true] at hma ⊢
      intro hc
      rcases fmem_iff.mp hc with ⟨g, hg, hgp⟩
      exact hma (fmem_iff.mpr ⟨g, (List.mem_filter.mp hg).1, hgp⟩)
    · rcases fmem_iff.mp hma with ⟨g, hg, hgp⟩
      refine fmem_iff.mpr ⟨g, List.mem_filter.mpr ⟨hg, ?_⟩, hgp⟩
      rw [fmem_congr hgp b, hb]
      rfl

/-! ### Membership through the sorting helpers -/

theorem mem_insertStr {x s : String} {l : List String} :
    x ∈ insertStr s l ↔ x = s ∨ x ∈ l := by
  induction l with
  | nil => simp [insertStr]
  | cons t ts ih =>
    by_cases h : strLeB s t = true
    · simp [insertStr, h]
    · simp only [insertStr, if_neg h, List.mem_cons, ih]
      tauto

theorem mem_sortStrings {x : String} {l : List String} :
    x ∈ sortStrings l ↔ x ∈ l := by
  induction l with
  | nil => simp [sortStrings]
  | cons t ts ih =>
    show x ∈ insertStr t (sortStrings ts) ↔ _
    rw [mem_insertStr, ih]
    simp

/-! ## Claim C7: `XcFile` identity is by filepath alone -/

/-- C7: for all `XcFile` values `f` and `g`, the Python equality holds exactly
when the filepath strings are identical (string equality, hence
case-sensitive); the result is unchanged under replacing the lazily attached
Swift/Objective-C declaration lists on either side; and equal files have equal
hashes. -/
theorem c7_xcfile_identity_by_filepath (f g : XcFile)
    (s1 s2 : List SwiftType) (o1 o2 : List ObjcType) :
    (XcFile.pyEq f g = true ↔ f.filepath = g.filepath)
    ∧ XcFile.pyEq f g = XcFile.pyEq ⟨f.filepath, s1, o1⟩ ⟨g.filepath, s2, o2⟩
    ∧ (XcFile.pyEq f g = true → XcFile.pyHash f = XcFile.pyHash g) := by
  refine ⟨by simp [XcFile.pyEq], rfl, fun h => ?_⟩
  have hp : f.filepath = g.filepath := by simpa [XcFile.pyEq] using h
  simp [XcFile.pyHash, hp]

/-- C7 witness: a concrete instantiation; two files with the same path but
different attached declarations are Python-equal and hash-equal. -/
theorem c7_witness :
    (XcFile.pyEq ⟨"A/F.swift", [⟨"T", .CLASS⟩], []⟩ ⟨"A/F.swift", [], [⟨"U", .CLASS⟩]⟩ = true
      ↔ ("A/F.swift" : String) = "A/F.swift")
    ∧ XcFile.pyEq ⟨"A/F.swift", [⟨"T", .CLASS⟩], []⟩ ⟨"A/F.swift", [], [⟨"U", .CLASS⟩]⟩
        = XcFile.pyEq ⟨"A/F.swift", [], []⟩ ⟨"A/F.swift", [], []⟩
    ∧ (XcFile.pyEq ⟨"A/F.swift", [⟨"T", .CLASS⟩], []⟩ ⟨"A/F.swift", [], [⟨"U", .CLASS⟩]⟩ = true →
        XcFile.pyHash ⟨"A/F.swift", [⟨"T", .CLASS⟩], []⟩
          = XcFile.pyHash ⟨"A/F.swift", [], [⟨"U", .CLASS⟩]⟩) :=
  c7_xcfile_identity_by_filepath ⟨"A/F.swift", [⟨"T", .CLASS⟩], []⟩
    ⟨"A/F.swift", [], [⟨"U", .CLASS⟩]⟩ [] [] [] []

/-! ## Claim C10: a target's files are exactly the union of its four buckets -/

/-- C10: a file is owned by a target (member of `XcTarget.files`, under the
Python set semantics of `XcFile.__eq__`) exactly when it is in one of the four
buckets `source_files`, `resource_files`, `header_files`, `linked_files`. -/
theorem c10_target_files_union (t : XcTarget) (f : XcFile) :
    fmem f t.files = true ↔
      (fmem f t.source_files = true ∨ fmem f t.resource_files = true
        ∨ fmem f t.header_files = true ∨ fmem f t.linked_files = true) := by
  show fmem f (funion (funion (funion t.source_files t.resource_files) t.header_files)
      t.linked_files) = true ↔ _
  rw [fmem_funion, fmem_funion, fmem_funion]
  simp [or_assoc]

/-- C10 witness: a concrete target owning one file per bucket. -/
theorem c10_witness :
    fmem ⟨"R.png", [], []⟩ (XcTarget.files ⟨"T", "application", "T",
        [⟨"S.swift", [], []⟩], [⟨"R.png", [], []⟩], [⟨"H.h", [], []⟩], [⟨"L.a", [], []⟩]⟩) = true
      ↔ (fmem ⟨"R.png", [], []⟩ [⟨"S.swift", [], []⟩] = true
          ∨ fmem ⟨"R.png", [], []⟩ [⟨"R.png", [], []⟩] = true
          ∨ fmem ⟨"R.png", [], []⟩ [⟨"H.h", [], []⟩] = true
          ∨ fmem ⟨"R.png", [], []⟩ [⟨"L.a", [], []⟩] = true) :=
  c10_target_files_union ⟨"T", "application", "T", [⟨"S.swift", [], []⟩], [⟨"R.png", [], []⟩],
    [⟨"H.h", [], []⟩], [⟨"L.a", [], []⟩]⟩ ⟨"R.png", [], []⟩

/-! ## Claim C2: `target_files` / `target_less_files` versus `files` -/

/-- C2 counterexample project: the single target owns `Ghost.swift`, but that
file is in no group and is not a root file, so it is outside `Project.files`. -/
def c2CexProject : XcProject :=
  ⟨"/p", "P", [⟨"T", "application", "T", [⟨"Ghost.swift", [], []⟩], [], [], []⟩], [], []⟩

/-- C2 counterexample: in `c2CexProject` the file `Ghost.swift` is
target-owned yet falls outside `Project.files`, so
`target_files ∪ target_less_files` is strictly larger than `Project.files`:
the claimed partition fails. -/
theorem c2_counterexample :
    fmem ⟨"Ghost.swift", [], []⟩ c2CexProject.target_files = true
    ∧ fmem ⟨"Ghost.swift", [], []⟩ c2CexProject.files = false
    ∧ fmem ⟨"Ghost.swift", [], []⟩ c2CexProject.target_less_files = false := by
  decide

/-- C2 (amended): `target_less_files` is always disjoint from `target_files`,
and together they always cover `Project.files`; when additionally every
target-owned file lies in `Project.files` (as in builder-produced projects,
where target files come from the group tree), the two sets partition
`Project.files` exactly. -/
theorem c2_partition (p : XcProject) :
    (∀ f : XcFile, fmem f p.target_less_files = true → fmem f p.target_files = false)
    ∧ (∀ f : XcFile, fmem f p.files = true →
        fmem f p.target_files = true ∨ fmem f p.target_less_files = true)
    ∧ ((∀ f : XcFile, fmem f p.target_files = true → fmem f p.files = true) →
        ∀ f : XcFile,
          (fmem f p.target_files = true ∨ fmem f p.target_less_files = true)
            ↔ fmem f p.files = true) := by
  have hless : ∀ f : XcFile,
      fmem f p.target_less_files = (fmem f p.files && !fmem f p.target_files) := by
    intro f
    exact fmem_fdiff _ _
  refine ⟨fun f h => ?_, fun f h => ?_, fun hsub f => ?_⟩
  · rw [hless f] at h
    rcases ht : fmem f p.target_files with _ | _
    · rfl
    · rw [ht] at h
      simp at h
  · by_cases ht : fmem f p.target_files = true
    · exact Or.inl ht
    · have ht' : fmem f p.target_files = false := by
        rcases hx : fmem f p.target_files with _ | _
        · rfl
        · exact absurd hx ht
      exact Or.inr (by rw [hless f, h, ht']; rfl)
  · constructor
    · rintro (h | h)
      · exact hsub f h
      · rw [hless f] at h
        rcases hx : fmem f p.files with _ | _
        · rw [hx] at h
          simp at h
        · rfl
    · intro h
      by_cases ht : fmem f p.target_files = true
      · exact Or.inl ht
      · have ht' : fmem f p.target_files = false := by
          rcases hx : fmem f p.target_files with _ | _
          · rfl
          · exact absurd hx ht
        exact Or.inr (by rw [hless f, h, ht']; rfl)

/-- C2 witness project: the target's only file is also a root file, so the
extra hypothesis of `c2_partition` holds. -/
def c2GoodProject : XcProject :=
  ⟨"/p", "P", [⟨"T", "application", "T", [⟨"Main.swift", [], []⟩], [], [], []⟩], [],
    [⟨"Main.swift", [], []⟩]⟩

/-- C2 witness: the amended partition theorem applied to `c2GoodProject`,
discharging the containment hypothesis. -/
theorem c2_witness :
    ∀ f : XcFile,
      (fmem f c2GoodProject.target_files = true ∨ fmem f c2GoodProject.target_less_files = true)
        ↔ fmem f c2GoodProject.files = true :=
  (c2_partition c2GoodProject).2.2
    (fun f h => by
      have he : c2GoodProject.target_files = c2GoodProject.files := by decide
      rw [← he]
      exact h)

/-! ## Claim C9: `type_not_in` has priority in `swift_types_filtered` -/

theorem map_fst_pair_nil (l : List SwiftTypeType) :
    (l.map (fun tt => (tt, ([] : List SwiftType)))).map Prod.fst = l := by
  induction l with
  | nil => rfl
  | cons a l ih => simp only [List.map_cons, ih]

theorem addToGroup_keys (acc : List (SwiftTypeType × List SwiftType)) (st : SwiftType) :
    (addToGroup acc st).map Prod.fst = acc.map Prod.fst := by
  simp only [addToGroup, List.map_map]
  refine List.map_congr_left (fun kv _ => ?_)
  by_cases h : kv.1 = st.type_identifier <;> simp [h]

theorem filtered_fold_keys (types : List SwiftTypeType) (l : List SwiftType)
    (acc : List (SwiftTypeType × List SwiftType)) :
    ((l.foldl (fun acc st => if st.type_identifier ∈ types then addToGroup acc st else acc)
        acc).map Prod.fst) = acc.map Prod.fst := by
  induction l generalizing acc with
  | nil => rfl
  | cons st l ih =>
    show ((l.foldl _ (if st.type_identifier ∈ types then addToGroup acc st else acc)).map
        Prod.fst) = _
    by_cases h : st.type_identifier ∈ types
    · rw [if_pos h, ih, addToGroup_keys]
    · rw [if_neg h, ih]

/-- C9: in `XcProject.swift_types_filtered`, `type_not_in` takes priority.
When `type_not_in` is non-empty the result is independent of `type_in` and its
keys (the covered kinds) are exactly `SwiftTypeType.ALL` minus `type_not_in`;
when `type_not_in` is empty the keys are exactly `type_in`. -/
theorem c9_type_not_in_priority (p : XcProject)
    (type_in type_in' type_not_in : List SwiftTypeType) :
    (type_not_in ≠ [] →
      p.swift_types_filtered type_in type_not_in = p.swift_types_filtered type_in' type_not_in
      ∧ (p.swift_types_filtered type_in type_not_in).map Prod.fst
          = SwiftTypeType.ALL.filter (fun t => decide (t ∉ type_not_in)))
    ∧ (type_not_in = [] →
        (p.swift_types_filtered type_in type_not_in).map Prod.fst = type_in) := by
  constructor
  · intro h
    constructor
    · simp only [XcProject.swift_types_filtered, if_pos h]
    · simp only [XcProject.swift_types_filtered, if_pos h]
      rw [filtered_fold_keys]
      exact map_fst_pair_nil _
  · intro h
    subst h
    simp only [XcProject.swift_types_filtered, ne_eq, not_true_eq_false, if_neg, ite_false]
    rw [filtered_fold_keys]
    exact map_fst_pair_nil _

/-- C9 witness: a concrete project with one class and one extension; excluding
extensions yields the four non-extension kinds whatever `type_in` says. -/
theorem c9_witness :
    (XcProject.swift_types_filtered
        ⟨"/p", "P", [⟨"App", "application", "App",
          [⟨"Foo.swift", [⟨"Foo", .CLASS⟩, ⟨"Foo", .EXTENSION⟩], []⟩], [], [], []⟩], [], []⟩
        [SwiftTypeType.CLASS] [SwiftTypeType.EXTENSION]
      = XcProject.swift_types_filtered
        ⟨"/p", "P", [⟨"App", "application", "App",
          [⟨"Foo.swift", [⟨"Foo", .CLASS⟩, ⟨"Foo", .EXTENSION⟩], []⟩], [], [], []⟩], [], []⟩
        [] [SwiftTypeType.EXTENSION])
    ∧ (XcProject.swift_types_filtered
        ⟨"/p", "P", [⟨"App", "application", "App",
          [⟨"Foo.swift", [⟨"Foo", .CLASS⟩, ⟨"Foo", .EXTENSION⟩], []⟩], [], [], []⟩], [], []⟩
        [SwiftTypeType.CLASS] [SwiftTypeType.EXTENSION]).map Prod.fst
      = SwiftTypeType.ALL.filter (fun t => decide (t ∉ [SwiftTypeType.EXTENSION])) :=
  (c9_type_not_in_priority _ [SwiftTypeType.CLASS] [] [SwiftTypeType.EXTENSION]).1
    (by decide)


/-! ## The extension-scope classifier: characterization and claims C1, C4, C5 -/

/-- The file-scoped bucket, characterized: extensions of each swift file whose
rule-1 condition holds, in file order. -/
def fileScopedList (p : XcProject) : List SwiftType :=
  p.swift_files.flatMap (fun f => f.swift_extensions.filter (fun e => fileScopedCond f e))

/-- The remaining (not file-scoped) extensions, in classification order. -/
def remainingList (p : XcProject) : List SwiftType :=
  p.swift_files.flatMap (fun f => f.swift_extensions.filter (fun e => !fileScopedCond f e))

theorem bool_eq_false_of_ne {b : Bool} (h : ¬ b = true) : b = false := by
  rcases hx : b with _ | _
  · rfl
  · exact absurd hx h

theorem foldl_split2 {α : Type} (cond : α → Bool) (l : List α) (a b : List α) :
    l.foldl (fun acc e => if cond e then (acc.1 ++ [e], acc.2) else (acc.1, acc.2 ++ [e]))
        (a, b)
      = (a ++ l.filter (fun e => cond e), b ++ l.filter (fun e => !cond e)) := by
  induction l generalizing a b with
  | nil => simp
  | cons e l ih =>
    by_cases h : cond e = true
    · simp only [List.foldl_cons, h, if_true, ih, List.filter_cons]
      simp [h]
    · have h' : cond e = false := bool_eq_false_of_ne h
      simp only [List.foldl_cons, h', if_false, Bool.false_eq_true, ih, List.filter_cons]
      simp [h']

theorem foldl_split3 {α : Type} (co cs : α → Bool) (l : List α) (a b c : List α) :
    l.foldl (fun acc e =>
        if co e then (acc.1 ++ [e], acc.2.1, acc.2.2)
        else if cs e then (acc.1, acc.2.1 ++ [e], acc.2.2)
        else (acc.1, acc.2.1, acc.2.2 ++ [e]))
        (a, b, c)
      = (a ++ l.filter (fun e => co e),
         b ++ l.filter (fun e => !co e && cs e),
         c ++ l.filter (fun e => !co e && !cs e)) := by
  induction l generalizing a b c with
  | nil => simp
  | cons e l ih =>
    by_cases h1 : co e = true
    · simp only [List.foldl_cons, h1, if_true, ih, List.filter_cons]
      simp [h1]
    · have h1' : co e = false := bool_eq_false_of_ne h1
      by_cases h2 : cs e = true
      · simp only [List.foldl_cons, h1', if_false, Bool.false_eq_true, h2, if_true, ih,
          List.filter_cons]
        simp [h1', h2]
      · have h2' : cs e = false := bool_eq_false_of_ne h2
        simp only [List.foldl_cons, h1', h2', if_false, Bool.false_eq_true, ih,
          List.filter_cons]
        simp [h1', h2']

theorem scopePass1_eq (p : XcProject) :
    scopePass1 p = (fileScopedList p, remainingList p) := by
  unfold scopePass1 fileScopedList remainingList
  have : ∀ (fs : List XcFile) (a b : List SwiftType),
      fs.foldl (fun acc f =>
          f.swift_extensions.foldl (fun acc e =>
            if fileScopedCond f e then (acc.1 ++ [e], acc.2) else (acc.1, acc.2 ++ [e]))
            acc)
        (a, b)
      = (a ++ fs.flatMap (fun f => f.swift_extensions.filter (fun e => fileScopedCond f e)),
         b ++ fs.flatMap (fun f => f.swift_extensions.filter (fun e => !fileScopedCond f e))) := by
    intro fs
    induction fs with
    | nil => simp
    | cons f fs ih =>
      intro a b
      simp only [List.foldl_cons]
      rw [foldl_split2, ih]
      simp [List.flatMap_cons]
  rw [this]
  simp

theorem scopePass2_eq (p : XcProject) :
    scopePass2 p =
      ((remainingList p).filter (fun e => decide (e.name ∈ objc_type_names p)),
       (remainingList p).filter
         (fun e => !decide (e.name ∈ objc_type_names p) && decide (e.name ∈ swift_type_names p)),
       (remainingList p).filter
         (fun e => !decide (e.name ∈ objc_type_names p) && !decide (e.name ∈ swift_type_names p))) := by
  unfold scopePass2
  rw [scopePass1_eq]
  rw [foldl_split3]
  simp

theorem filter_three_perm {α : Type} (co cs : α → Bool) (l : List α) :
    (l.filter (fun e => co e) ++
      (l.filter (fun e => !co e && cs e) ++ l.filter (fun e => !co e && !cs e))).Perm l := by
  induction l with
  | nil => simp
  | cons e l ih =>
    by_cases h1 : co e = true
    · have e1 : (e :: l).filter (fun e => co e) = e :: l.filter (fun e => co e) := by
        simp [List.filter_cons, h1]
      have e2 : (e :: l).filter (fun e => !co e && cs e) = l.filter (fun e => !co e && cs e) := by
        simp [List.filter_cons, h1]
      have e3 : (e :: l).filter (fun e => !co e && !cs e) = l.filter (fun e => !co e && !cs e) := by
        simp [List.filter_cons, h1]
      rw [e1, e2, e3]
      exact ih.cons e
    · have h1' : co e = false := bool_eq_false_of_ne h1
      have e1 : (e :: l).filter (fun e => co e) = l.filter (fun e => co e) := by
        simp [List.filter_cons, h1']
      by_cases h2 : cs e = true
      · have e2 : (e :: l).filter (fun e => !co e && cs e)
            = e :: l.filter (fun e => !co e && cs e) := by
          simp [List.filter_cons, h1', h2]
        have e3 : (e :: l).filter (fun e => !co e && !cs e)
            = l.filter (fun e => !co e && !cs e) := by
          simp [List.filter_cons, h1', h2]
        rw [e1, e2, e3]
        exact (List.perm_middle).trans (ih.cons e)
      · have h2' : cs e = false := bool_eq_false_of_ne h2
        have e2 : (e :: l).filter (fun e => !co e && cs e)
            = l.filter (fun e => !co e && cs e) := by
          simp [List.filter_cons, h1', h2']
        have e3 : (e :: l).filter (fun e => !co e && !cs e)
            = e :: l.filter (fun e => !co e && !cs e) := by
          simp [List.filter_cons, h1', h2']
        rw [e1, e2, e3, ← List.append_assoc]
        refine (List.perm_middle).trans ?_
        rw [List.append_assoc]
        exact ih.cons e

theorem perm_append_middle {α : Type} (b c d : List α) :
    (b ++ (c ++ d)).Perm (c ++ (b ++ d)) := by
  rw [← List.append_assoc, ← List.append_assoc]
  exact List.perm_append_comm.append_right d

theorem perm_append_swap {α : Type} (a b c d : List α) :
    ((a ++ b) ++ (c ++ d)).Perm ((a ++ c) ++ (b ++ d)) := by
  simp only [List.append_assoc]
  exact List.Perm.append_left a (perm_append_middle b c d)

theorem flatMap_filter_perm (fs : List XcFile) :
    ((fs.flatMap (fun f => f.swift_extensions.filter (fun e => fileScopedCond f e))) ++
      (fs.flatMap (fun f => f.swift_extensions.filter (fun e => !fileScopedCond f e)))).Perm
      (fs.flatMap XcFile.swift_extensions) := by
  induction fs with
  | nil => simp
  | cons f fs ih =>
    simp only [List.flatMap_cons]
    exact (perm_append_swap _ _ _ _).trans
      (List.Perm.append (List.filter_append_perm _ _) ih)

theorem grouped_FILE (p : XcProject) :
    p.swift_extensions_grouped_by_scope .FILE = fileScopedList p := by
  show (scopePass1 p).1 = _
  rw [scopePass1_eq]

theorem grouped_OBJC (p : XcProject) :
    p.swift_extensions_grouped_by_scope .PROJECT_OBJC
      = (remainingList p).filter (fun e => decide (e.name ∈ objc_type_names p)) := by
  show (scopePass2 p).1 = _
  rw [scopePass2_eq]

theorem grouped_SWIFT (p : XcProject) :
    p.swift_extensions_grouped_by_scope .PROJECT_SWIFT
      = (remainingList p).filter
          (fun e => !decide (e.name ∈ objc_type_names p) && decide (e.name ∈ swift_type_names p)) := by
  show (scopePass2 p).2.1 = _
  rw [scopePass2_eq]

theorem grouped_OUTER (p : XcProject) :
    p.swift_extensions_grouped_by_scope .OUTER
      = (remainingList p).filter
          (fun e => !decide (e.name ∈ objc_type_names p) && !decide (e.name ∈ swift_type_names p)) := by
  show (scopePass2 p).2.2 = _
  rw [scopePass2_eq]

/-- C1: extension-scope classification is total and mutually exclusive, and
follows the precedence order file > project-objc > project-swift > outer.  The
four buckets together are a permutation of all extension declarations of the
project's swift files (each occurrence is classified exactly once), and each
extension occurrence lands in the bucket selected by `classifierRuleScope`,
whose rule order checks the owning file first (regardless of any
other-language type of the same name elsewhere), then the other-language
project inventory, then the same-language one, and outer-scopes otherwise. -/
theorem c1_classification_total_exclusive (p : XcProject) :
    (p.swift_extensions_grouped_by_scope .FILE
        ++ p.swift_extensions_grouped_by_scope .PROJECT_OBJC
        ++ p.swift_extensions_grouped_by_scope .PROJECT_SWIFT
        ++ p.swift_extensions_grouped_by_scope .OUTER).Perm
      (p.swift_files.flatMap XcFile.swift_extensions)
    ∧ (∀ f ∈ p.swift_files, ∀ e ∈ f.swift_extensions,
        e ∈ p.swift_extensions_grouped_by_scope (classifierRuleScope p f e)) := by
  constructor
  · rw [grouped_FILE, grouped_OBJC, grouped_SWIFT, grouped_OUTER]
    simp only [List.append_assoc]
    refine (List.Perm.append_left _ (filter_three_perm _ _ _)).trans ?_
    unfold fileScopedList remainingList
    exact flatMap_filter_perm _
  · intro f hf e he
    unfold classifierRuleScope
    by_cases h1 : fileScopedCond f e = true
    · simp only [h1, if_true]
      rw [grouped_FILE]
      exact List.mem_flatMap.mpr ⟨f, hf, List.mem_filter.mpr ⟨he, h1⟩⟩
    · have h1' : fileScopedCond f e = false := bool_eq_false_of_ne h1
      have hrem : e ∈ remainingList p := by
        refine List.mem_flatMap.mpr ⟨f, hf, List.mem_filter.mpr ⟨he, ?_⟩⟩
        simp [h1']
      by_cases h2 : decide (e.name ∈ objc_type_names p) = true
      · simp only [h1', Bool.false_eq_true, if_false, h2, if_true]
        rw [grouped_OBJC]
        exact List.mem_filter.mpr ⟨hrem, h2⟩
      · have h2' : decide (e.name ∈ objc_type_names p) = false := bool_eq_false_of_ne h2
        by_cases h3 : decide (e.name ∈ swift_type_names p) = true
        · simp only [h1', h2', Bool.false_eq_true, if_false, h3, if_true]
          rw [grouped_SWIFT]
          refine List.mem_filter.mpr ⟨hrem, ?_⟩
          simp [h2', h3]
        · have h3' : decide (e.name ∈ swift_type_names p) = false := bool_eq_false_of_ne h3
          simp only [h1', h2', h3', Bool.false_eq_true, if_false]
          rw [grouped_OUTER]
          refine List.mem_filter.mpr ⟨hrem, ?_⟩
          simp [h2', h3']

/-- C1 witness project: one swift file declaring a class and an extension of
another name. -/
def c1WitFile : XcFile :=
  ⟨"Lib.swift", [⟨"Base", .CLASS⟩, ⟨"Base", .EXTENSION⟩], []⟩

/-- C1 witness project. -/
def c1WitProject : XcProject :=
  ⟨"/p", "P", [⟨"App", "application", "App", [c1WitFile], [], [], []⟩], [], []⟩

/-- C1 witness: the classification theorem applied to a concrete project,
extension and file, with both membership hypotheses discharged by `decide`. -/
theorem c1_witness :
    (⟨"Base", .EXTENSION⟩ : SwiftType) ∈
      c1WitProject.swift_extensions_grouped_by_scope
        (classifierRuleScope c1WitProject c1WitFile ⟨"Base", .EXTENSION⟩) :=
  (c1_classification_total_exclusive c1WitProject).2 c1WitFile (by decide)
    ⟨"Base", .EXTENSION⟩ (by decide)

/-- C4 fixture: `Foo.swift` declares class `Foo`. -/
def c4Foo : XcFile := ⟨"Foo.swift", [⟨"Foo", .CLASS⟩], []⟩

/-- C4 fixture: `Bar.swift` declares `extension Foo`. -/
def c4Bar : XcFile := ⟨"Bar.swift", [⟨"Foo", .EXTENSION⟩], []⟩

/-- C4 fixture: target "App" owns both files. -/
def c4ProjectWithFoo : XcProject :=
  ⟨"/p", "P", [⟨"App", "application", "App", [c4Foo, c4Bar], [], [], []⟩], [], []⟩

/-- C4 fixture: the same project with `Foo.swift` removed. -/
def c4ProjectWithoutFoo : XcProject :=
  ⟨"/p", "P", [⟨"App", "application", "App", [c4Bar], [], [], []⟩], [], []⟩

/-- C4: in the project where target "App" owns `Foo.swift` (class `Foo`) and
`Bar.swift` (`extension Foo`), the extension is classified
project-scoped-same-language; with `Foo.swift` removed and no other `Foo`
declaration anywhere, the same extension is classified outer-scoped.  (The
spec writes the language-A source files as `Foo.a`/`Bar.a`; language A is
Swift and its source extension is `.swift`.) -/
theorem c4_scenario_reclassification :
    (c4ProjectWithFoo.swift_extensions_grouped_by_scope .PROJECT_SWIFT = [⟨"Foo", .EXTENSION⟩]
      ∧ c4ProjectWithFoo.swift_extensions_grouped_by_scope .FILE = []
      ∧ c4ProjectWithFoo.swift_extensions_grouped_by_scope .PROJECT_OBJC = []
      ∧ c4ProjectWithFoo.swift_extensions_grouped_by_scope .OUTER = [])
    ∧ (c4ProjectWithoutFoo.swift_extensions_grouped_by_scope .OUTER = [⟨"Foo", .EXTENSION⟩]
      ∧ c4ProjectWithoutFoo.swift_extensions_grouped_by_scope .FILE = []
      ∧ c4ProjectWithoutFoo.swift_extensions_grouped_by_scope .PROJECT_OBJC = []
      ∧ c4ProjectWithoutFoo.swift_extensions_grouped_by_scope .PROJECT_SWIFT = []) := by
  decide

/-- C5 (amended): rule 2 of the classifier checks the extension's name against
the names of `XcProject.objc_types`, the inventory drawn from the targets'
`.h`/`.m` files plus the target-less `.h` files — not against every
Objective-C declaration anywhere in the project.  Every non-file-scoped
extension whose name is in that inventory is classified
project-scoped-other-language. -/
theorem c5_rule2_inventory (p : XcProject) (f : XcFile) (e : SwiftType)
    (hf : f ∈ p.swift_files) (he : e ∈ f.swift_extensions)
    (h1 : fileScopedCond f e = false)
    (h2 : e.name ∈ objc_type_names p) :
    e ∈ p.swift_extensions_grouped_by_scope .PROJECT_OBJC := by
  rw [grouped_OBJC]
  refine List.mem_filter.mpr ⟨?_, by simpa using h2⟩
  refine List.mem_flatMap.mpr ⟨f, hf, List.mem_filter.mpr ⟨he, ?_⟩⟩
  simp [h1]

/-- C5 witness fixtures: a target-owned header declares class `Painter`; an
extension of `Painter` in a swift file of the same target is objc-scoped. -/
def c5WitProject : XcProject :=
  ⟨"/p", "P", [⟨"App", "application", "App",
    [⟨"Ext.swift", [⟨"Painter", .EXTENSION⟩], []⟩], [],
    [⟨"Painter.h", [], [⟨"Painter", .CLASS⟩]⟩], []⟩], [], []⟩

/-- C5 witness: the amended rule-2 theorem at a concrete project. -/
theorem c5_witness :
    (⟨"Painter", .EXTENSION⟩ : SwiftType) ∈
      c5WitProject.swift_extensions_grouped_by_scope .PROJECT_OBJC :=
  c5_rule2_inventory c5WitProject ⟨"Ext.swift", [⟨"Painter", .EXTENSION⟩], []⟩
    ⟨"Painter", .EXTENSION⟩ (by decide) (by decide) (by decide) (by decide)

/-- C5 counterexample fixtures: the objc class `Foo` is declared only in the
target-less implementation file `Foo.m`. -/
def c5Bar : XcFile := ⟨"Bar.swift", [⟨"Foo", .EXTENSION⟩], []⟩

/-- C5 counterexample fixture: target-less `Foo.m`. -/
def c5FooM : XcFile := ⟨"Foo.m", [], [⟨"Foo", .CLASS⟩]⟩

/-- C5 counterexample project. -/
def c5CexProject : XcProject :=
  ⟨"/p", "P", [⟨"App", "application", "App", [c5Bar], [], [], []⟩], [], [c5FooM]⟩

/-- C5 counterexample: `Foo.m` is in the project's files, is owned by no
target, and declares the Objective-C class `Foo`; the extension of `Foo` is
not file-scoped, yet it is classified outer-scoped — not
project-scoped-other-language — because target-less `.m` files are excluded
from the rule-2 inventory.  This refutes the claim that rule 2 covers all
Language-B declarations project-wide including files owned by no target. -/
theorem c5_counterexample :
    fmem c5FooM c5CexProject.files = true
    ∧ fmem c5FooM c5CexProject.target_files = false
    ∧ "Foo" ∈ objcNamesAnywhere c5CexProject
    ∧ c5Bar ∈ c5CexProject.swift_files
    ∧ (⟨"Foo", .EXTENSION⟩ : SwiftType) ∈ c5Bar.swift_extensions
    ∧ fileScopedCond c5Bar ⟨"Foo", .EXTENSION⟩ = false
    ∧ c5CexProject.swift_extensions_grouped_by_scope .PROJECT_OBJC = []
    ∧ c5CexProject.swift_extensions_grouped_by_scope .OUTER = [⟨"Foo", .EXTENSION⟩] := by
  decide



/-! ## Claim C3: the `group_files` worklist loop versus cyclic group graphs -/

theorem reaches_cons_iff {G : GroupGraph} {g n : Nat} :
    Reaches G g n ↔ n = g ∨ ∃ c ∈ G.children g, Reaches G c n := by
  constructor
  · intro h
    cases h with
    | refl => exact Or.inl rfl
    | step hc hr => exact Or.inr ⟨_, hc, hr⟩
  · rintro (rfl | ⟨c, hc, hr⟩)
    · exact Reaches.refl _
    · exact Reaches.step hc hr

theorem group_files_loop_mem (G : GroupGraph) :
    ∀ (fuel : Nat) (wl : List Nat) (acc r : List String),
      group_files_loop G fuel wl acc = some r →
      ∀ s, s ∈ r ↔ (s ∈ acc ∨ ∃ n, (∃ g ∈ wl, Reaches G g n) ∧ s ∈ G.gfiles n) := by
  intro fuel
  induction fuel with
  | zero =>
    intro wl acc r h s
    cases wl with
    | nil =>
      have hacc : acc = r := by simpa [group_files_loop] using h
      subst hacc
      simp
    | cons g rest => simp [group_files_loop] at h
  | succ fuel ih =>
    intro wl acc r h s
    cases wl with
    | nil =>
      have hacc : acc = r := by simpa [group_files_loop] using h
      subst hacc
      simp
    | cons g rest =>
      have h' : group_files_loop G fuel ((G.children g).reverse ++ rest)
          (acc ++ G.gfiles g) = some r := h
      rw [ih _ _ _ h' s]
      constructor
      · rintro (hs | ⟨n, ⟨g', hg', hr⟩, hn⟩)
        · rcases List.mem_append.mp hs with h1 | h1
          · exact Or.inl h1
          · exact Or.inr ⟨g, ⟨g, List.mem_cons_self _ _, Reaches.refl g⟩, h1⟩
        · rcases List.mem_append.mp hg' with h1 | h1
          · have hc : g' ∈ G.children g := List.mem_reverse.mp h1
            exact Or.inr ⟨n, ⟨g, List.mem_cons_self _ _, Reaches.step hc hr⟩, hn⟩
          · exact Or.inr ⟨n, ⟨g', List.mem_cons_of_mem _ h1, hr⟩, hn⟩
      · rintro (hs | ⟨n, ⟨g', hg', hr⟩, hn⟩)
        · exact Or.inl (List.mem_append.mpr (Or.inl hs))
        · rcases List.mem_cons.mp hg' with rfl | h1
          · rcases reaches_cons_iff.mp hr with rfl | ⟨c, hc, hr'⟩
            · exact Or.inl (List.mem_append.mpr (Or.inr hn))
            · exact Or.inr ⟨n,
                ⟨c, List.mem_append.mpr (Or.inl (List.mem_reverse.mpr hc)), hr'⟩, hn⟩
          · exact Or.inr ⟨n, ⟨g', List.mem_append.mpr (Or.inr h1), hr⟩, hn⟩

/-- Weight of a node, computed with an explicit recursion budget. -/
def Wt (G : GroupGraph) : Nat → Nat → Nat
  | 0, _ => 1
  | b + 1, n => 1 + ((G.children n).map (Wt G b)).sum

theorem Wt_pos (G : GroupGraph) (b n : Nat) : 1 ≤ Wt G b n := by
  cases b <;> simp [Wt]

theorem Wt_stab (G : GroupGraph) (rk : Nat → Nat)
    (hrk : ∀ i j, j ∈ G.children i → rk j < rk i) :
    ∀ (v n b b' : Nat), rk n = v → rk n < b → rk n < b' → Wt G b n = Wt G b' n := by
  intro v
  induction v using Nat.strong_induction_on with
  | _ v ih =>
    intro n b b' hv hb hb'
    cases b with
    | zero => omega
    | succ b0 =>
      cases b' with
      | zero => omega
      | succ b0' =>
        show 1 + ((G.children n).map (Wt G b0)).sum = 1 + ((G.children n).map (Wt G b0')).sum
        have hmap : (G.children n).map (Wt G b0) = (G.children n).map (Wt G b0') := by
          refine List.map_congr_left (fun c hc => ?_)
          have hcr : rk c < rk n := hrk n c hc
          exact ih (rk c) (by omega) c b0 b0' rfl (by omega) (by omega)
        rw [hmap]

/-- The stabilized weight of a node under a rank function. -/
def Wof (G : GroupGraph) (rk : Nat → Nat) (n : Nat) : Nat := Wt G (rk n + 1) n

theorem Wof_pos (G : GroupGraph) (rk : Nat → Nat) (n : Nat) : 1 ≤ Wof G rk n :=
  Wt_pos G _ n

theorem Wof_eq (G : GroupGraph) (rk : Nat → Nat)
    (hrk : ∀ i j, j ∈ G.children i → rk j < rk i) (n : Nat) :
    Wof G rk n = 1 + ((G.children n).map (Wof G rk)).sum := by
  show Wt G (rk n + 1) n = _
  have h1 : Wt G (rk n + 1) n = 1 + ((G.children n).map (Wt G (rk n))).sum := rfl
  rw [h1]
  have hmap : (G.children n).map (Wt G (rk n)) = (G.children n).map (Wof G rk) := by
    refine List.map_congr_left (fun c hc => ?_)
    have hcr : rk c < rk n := hrk n c hc
    exact Wt_stab G rk hrk (rk c) c (rk n) (rk c + 1) rfl hcr (by omega)
  rw [hmap]

theorem loop_total (G : GroupGraph) (rk : Nat → Nat)
    (hrk : ∀ i j, j ∈ G.children i → rk j < rk i) :
    ∀ (fuel : Nat) (wl : List Nat) (acc : List String),
      (wl.map (Wof G rk)).sum ≤ fuel →
      ∃ r, group_files_loop G fuel wl acc = some r := by
  intro fuel
  induction fuel with
  | zero =>
    intro wl acc h
    cases wl with
    | nil => exact ⟨acc, rfl⟩
    | cons g rest =>
      exfalso
      have h1 : 1 ≤ Wof G rk g := Wof_pos G rk g
      simp only [List.map_cons, List.sum_cons] at h
      omega
  | succ fuel ih =>
    intro wl acc h
    cases wl with
    | nil => exact ⟨acc, rfl⟩
    | cons g rest =>
      show ∃ r, group_files_loop G fuel ((G.children g).reverse ++ rest)
          (acc ++ G.gfiles g) = some r
      apply ih
      have hsum : (((G.children g).reverse ++ rest).map (Wof G rk)).sum
          = ((G.children g).map (Wof G rk)).sum + (rest.map (Wof G rk)).sum := by
        rw [List.map_append, List.sum_append, List.map_reverse, List.sum_reverse]
      rw [hsum]
      have hW : Wof G rk g = 1 + ((G.children g).map (Wof G rk)).sum := Wof_eq G rk hrk g
      have hh : Wof G rk g + (rest.map (Wof G rk)).sum ≤ fuel + 1 := by
        simpa [List.map_cons, List.sum_cons] using h
      omega

/-- C3 (amended): on an acyclic group heap — one admitting a rank function
that strictly decreases along child edges — the worklist loop of
`XcProject.group_files` terminates (some finite step budget suffices) and its
result contains exactly the files of the groups reachable from the starting
group list.  The unamended claim, that this also holds in the presence of an
accidental cycle, is refuted by `c3_counterexample`. -/
theorem c3_group_files_acyclic_correct (G : GroupGraph) (roots : List Nat)
    (rk : Nat → Nat) (hrk : ∀ i j, j ∈ G.children i → rk j < rk i) :
    ∃ fuel r, group_files_loop G fuel roots [] = some r
      ∧ ∀ s, s ∈ r ↔ ∃ n, (∃ g ∈ roots, Reaches G g n) ∧ s ∈ G.gfiles n := by
  obtain ⟨r, hr⟩ :=
    loop_total G rk hrk ((roots.map (Wof G rk)).sum) roots [] (le_refl _)
  refine ⟨_, r, hr, fun s => ?_⟩
  have hmem := group_files_loop_mem G _ _ _ _ hr s
  simpa using hmem

/-- A one-node heap whose only group lists itself as a child group. -/
def cyclicGroupGraph : GroupGraph := ⟨fun _ => [0], fun _ => []⟩

theorem cyclic_loop_none :
    ∀ (fuel : Nat) (acc : List String),
      group_files_loop cyclicGroupGraph fuel [0] acc = none := by
  intro fuel
  induction fuel with
  | zero => intro acc; rfl
  | succ fuel ih =>
    intro acc
    show group_files_loop cyclicGroupGraph fuel [0] (acc ++ []) = none
    exact ih _

/-- C3 counterexample: on the heap where group `0` is its own child (a group
reachable from itself through child-group edges), the `group_files` worklist
loop never terminates: no step budget makes it return.  This refutes the claim
that the computation terminates even when the group graph contains a cycle. -/
theorem c3_counterexample :
    0 ∈ cyclicGroupGraph.children 0
    ∧ ¬ ∃ fuel r, group_files_loop cyclicGroupGraph fuel [0] [] = some r := by
  constructor
  · simp [cyclicGroupGraph]
  · rintro ⟨fuel, r, h⟩
    rw [cyclic_loop_none fuel []] at h
    cases h

/-- C3 witness heap: group 0 has children 1 and 2; no further edges. -/
def c3WitGraph : GroupGraph :=
  ⟨fun n => if n = 0 then [1, 2] else [],
   fun n => if n = 0 then ["Root.txt"] else if n = 1 then ["A.txt"] else ["B.txt"]⟩

/-- C3 witness rank function. -/
def c3WitRank : Nat → Nat := fun n => if n = 0 then 1 else 0

/-- C3 witness: the amended theorem applied to a concrete acyclic heap, with
the rank hypothesis discharged explicitly. -/
theorem c3_witness :
    ∃ fuel r, group_files_loop c3WitGraph fuel [0] [] = some r
      ∧ ∀ s, s ∈ r ↔ ∃ n, (∃ g ∈ [0], Reaches c3WitGraph g n) ∧ s ∈ c3WitGraph.gfiles n :=
  c3_group_files_acyclic_correct c3WitGraph [0] c3WitRank (by
    intro i j hj
    by_cases hi : i = 0
    · subst hi
      have hj' : j = 1 ∨ j = 2 := by simpa [c3WitGraph] using hj
      rcases hj' with rfl | rfl <;> simp [c3WitRank]
    · have hnil : c3WitGraph.children i = [] := by simp [c3WitGraph, hi]
      rw [hnil] at hj
      cases hj)



/-! ## Claim C6: duplicate/missing objc file-pair detection -/

/-- C6 fixture: the five objc files — basenames A.h, A.m, B.h, B.m plus a
second, distinct file with basename B.h. -/
def c6Files : List XcFile :=
  [⟨"A.h", [], []⟩, ⟨"A.m", [], []⟩, ⟨"B.h", [], []⟩, ⟨"Sub/B.h", [], []⟩, ⟨"B.m", [], []⟩]

/-- C6 fixture: a project whose Objective-C file set consists exactly of the
five files of `c6Files`. -/
def c6Project : XcProject :=
  ⟨"/p", "P", [⟨"T", "application", "T", [⟨"A.m", [], []⟩, ⟨"B.m", [], []⟩], [],
    [⟨"A.h", [], []⟩, ⟨"B.h", [], []⟩, ⟨"Sub/B.h", [], []⟩], []⟩], [], []⟩

set_option maxRecDepth 20000 in
/-- C6: `c6Project`'s Objective-C file set is (a permutation of) the five
fixture files, and whatever order the detection loop visits them in, it
computes exactly one duplicate header name (`B`), zero duplicate
implementation names, zero missing header names and zero missing
implementation names. -/
theorem c6_duplicate_detection :
    c6Project.objc_files.Perm c6Files
    ∧ ∀ l : List XcFile, l.Perm c6Files →
        missing_objc_analysis l = (["B"], [], [], []) := by
  constructor
  · decide
  · intro l hl
    have hall : ∀ x ∈ c6Files.permutations',
        missing_objc_analysis x = (["B"], [], [], []) := by decide
    exact hall l (List.mem_permutations'.mpr hl)

/-- C6 witness: the detection applied to the project's own objc file list. -/
theorem c6_witness :
    missing_objc_analysis c6Project.objc_files = (["B"], [], [], []) :=
  c6_duplicate_detection.2 c6Project.objc_files c6_duplicate_detection.1



/-! ## Claim C8: the shared-files query -/

/-- An ownership fact recorded in the `file_targets` dictionary: the entry for
path `q` contains target key `k`. -/
def OwnRec (m : List (String × List (String × String))) (q : String)
    (k : String × String) : Prop :=
  ∃ kv ∈ m, kv.1 = q ∧ k ∈ kv.2

/-- Well-formedness of the dictionary: keys are unique (it models a Python
dict) and each value set is duplicate-free (it models a Python set). -/
def MapWF (m : List (String × List (String × String))) : Prop :=
  (m.map Prod.fst).Nodup ∧ ∀ kv ∈ m, kv.2.Nodup

theorem own_nil {q : String} {k : String × String} : ¬ OwnRec [] q k := by
  rintro ⟨kv, hkv, _⟩
  cases hkv

theorem addFileOwner_own (m : List (String × List (String × String)))
    (path : String) (k : String × String) (q : String) (k' : String × String) :
    OwnRec (addFileOwner m path k) q k' ↔ OwnRec m q k' ∨ (q = path ∧ k' = k) := by
  unfold addFileOwner
  by_cases h : m.any (fun kv => kv.1 == path) = true
  · rw [if_pos h]
    constructor
    · rintro ⟨kv', hkv', hfst, hk⟩
      rcases List.mem_map.mp hkv' with ⟨kv, hkv, rfl⟩
      by_cases hp : (kv.1 == path) = true
      · rw [if_pos hp] at hfst hk
        rcases List.mem_insert_iff.mp hk with rfl | hk2
        · exact Or.inr ⟨hfst.symm.trans (by simpa using hp), rfl⟩
        · exact Or.inl ⟨kv, hkv, hfst, hk2⟩
      · rw [if_neg hp] at hfst hk
        exact Or.inl ⟨kv, hkv, hfst, hk⟩
    · rintro (⟨kv, hkv, hfst, hk⟩ | ⟨rfl, rfl⟩)
      · by_cases hp : (kv.1 == path) = true
        · refine ⟨(kv.1, kv.2.insert k), List.mem_map.mpr ⟨kv, hkv, by rw [if_pos hp]⟩,
            hfst, List.mem_insert_iff.mpr (Or.inr hk)⟩
        · exact ⟨kv, List.mem_map.mpr ⟨kv, hkv, by rw [if_neg hp]⟩, hfst, hk⟩
      · rcases List.any_eq_true.mp h with ⟨kv0, hkv0, hp0⟩
        refine ⟨(kv0.1, kv0.2.insert k'),
          List.mem_map.mpr ⟨kv0, hkv0, by rw [if_pos hp0]⟩,
          by simpa using hp0, List.mem_insert_iff.mpr (Or.inl rfl)⟩
  · rw [if_neg h]
    constructor
    · rintro ⟨kv, hkv, hfst, hk⟩
      rcases List.mem_append.mp hkv with h1 | h1
      · exact Or.inl ⟨kv, h1, hfst, hk⟩
      · have : kv = (path, [k]) := List.mem_singleton.mp h1
        subst this
        exact Or.inr ⟨hfst.symm, List.mem_singleton.mp hk⟩
    · rintro (⟨kv, hkv, hfst, hk⟩ | ⟨rfl, rfl⟩)
      · exact ⟨kv, List.mem_append.mpr (Or.inl hkv), hfst, hk⟩
      · exact ⟨(q, [k']), List.mem_append.mpr (Or.inr (List.mem_singleton.mpr rfl)), rfl,
          List.mem_singleton.mpr rfl⟩

theorem nodup_insert_pair {l : List (String × String)} (k : String × String)
    (h : l.Nodup) : (l.insert k).Nodup := by
  by_cases he : k ∈ l
  · rw [List.insert_of_mem he]
    exact h
  · rw [List.insert_of_not_mem he]
    exact List.nodup_cons.mpr ⟨he, h⟩

theorem addFileOwner_wf (m : List (String × List (String × String)))
    (path : String) (k : String × String) (hwf : MapWF m) :
    MapWF (addFileOwner m path k) := by
  obtain ⟨hkeys, hvals⟩ := hwf
  unfold addFileOwner
  by_cases h : m.any (fun kv => kv.1 == path) = true
  · rw [if_pos h]
    constructor
    · have hmap : ((m.map (fun kv =>
          if kv.1 == path then (kv.1, kv.2.insert k) else kv)).map Prod.fst)
            = m.map Prod.fst := by
        rw [List.map_map]
        refine List.map_congr_left (fun kv _ => ?_)
        by_cases hp : (kv.1 == path) = true
        · rw [Function.comp_apply, if_pos hp]
        · rw [Function.comp_apply, if_neg hp]
      rw [hmap]
      exact hkeys
    · intro kv' hkv'
      rcases List.mem_map.mp hkv' with ⟨kv, hkv, rfl⟩
      by_cases hp : (kv.1 == path) = true
      · rw [if_pos hp]
        show (kv.2.insert k).Nodup
        exact nodup_insert_pair k (hvals kv hkv)
      · rw [if_neg hp]
        exact hvals kv hkv
  · rw [if_neg h]
    constructor
    · rw [List.map_append]
      rw [List.nodup_append]
      refine ⟨hkeys, List.nodup_singleton _, ?_⟩
      intro a ha hb
      have hb : a = path := by simpa using hb
      rcases List.mem_map.mp ha with ⟨kv, hkv, hfst⟩
      apply h
      refine List.any_eq_true.mpr ⟨kv, hkv, ?_⟩
      rw [beq_iff_eq, hfst, hb]
    · intro kv hkv
      rcases List.mem_append.mp hkv with h1 | h1
      · exact hvals kv h1
      · have : kv = (path, [k]) := List.mem_singleton.mp h1
        subst this
        exact List.nodup_singleton _

/-- The dictionary-building fold over a flat list of `(path, key)` pairs. -/
def addAll (m : List (String × List (String × String)))
    (ps : List (String × (String × String))) : List (String × List (String × String)) :=
  ps.foldl (fun m pk => addFileOwner m pk.1 pk.2) m

theorem addAll_own (ps : List (String × (String × String))) :
    ∀ (m : List (String × List (String × String))) (q : String) (k : String × String),
      OwnRec (addAll m ps) q k ↔ OwnRec m q k ∨ (q, k) ∈ ps := by
  induction ps with
  | nil => intro m q k; simp [addAll]
  | cons pk ps ih =>
    intro m q k
    show OwnRec (addAll (addFileOwner m pk.1 pk.2) ps) q k ↔ _
    rw [ih, addFileOwner_own]
    constructor
    · rintro ((h | ⟨rfl, rfl⟩) | h)
      · exact Or.inl h
      · exact Or.inr (List.mem_cons_self _ _)
      · exact Or.inr (List.mem_cons_of_mem _ h)
    · rintro (h | h)
      · exact Or.inl (Or.inl h)
      · rcases List.mem_cons.mp h with h1 | h1
        · exact Or.inl (Or.inr ⟨congrArg Prod.fst h1, congrArg Prod.snd h1⟩)
        · exact Or.inr h1

theorem addAll_wf (ps : List (String × (String × String))) :
    ∀ (m : List (String × List (String × String))), MapWF m → MapWF (addAll m ps) := by
  induction ps with
  | nil => intro m h; exact h
  | cons pk ps ih =>
    intro m h
    exact ih _ (addFileOwner_wf m pk.1 pk.2 h)

theorem inner_fold_eq (key : String × String) (fs : List XcFile) :
    ∀ (m : List (String × List (String × String))),
      fs.foldl (fun m f => addFileOwner m f.filepath key) m
        = addAll m (fs.map (fun f => (f.filepath, key))) := by
  induction fs with
  | nil => intro m; rfl
  | cons f fs ih =>
    intro m
    show fs.foldl _ (addFileOwner m f.filepath key) = _
    rw [ih]
    rfl

theorem addAll_append (m : List (String × List (String × String)))
    (ps qs : List (String × (String × String))) :
    addAll m (ps ++ qs) = addAll (addAll m ps) qs := by
  unfold addAll
  rw [List.foldl_append]

theorem file_targets_map_eq (ts : List XcTarget) :
    file_targets_map ts
      = addAll [] (ts.flatMap (fun t => t.files.map (fun f => (f.filepath, t.pyKey)))) := by
  unfold file_targets_map
  suffices h : ∀ (m : List (String × List (String × String))),
      ts.foldl (fun m t => t.files.foldl (fun m f => addFileOwner m f.filepath t.pyKey) m) m
        = addAll m (ts.flatMap (fun t => t.files.map (fun f => (f.filepath, t.pyKey)))) by
    exact h []
  induction ts with
  | nil => intro m; rfl
  | cons t ts ih =>
    intro m
    show ts.foldl _ (t.files.foldl (fun m f => addFileOwner m f.filepath t.pyKey) m) = _
    rw [ih, inner_fold_eq, List.flatMap_cons, addAll_append]

theorem file_targets_map_wf (ts : List XcTarget) : MapWF (file_targets_map ts) := by
  rw [file_targets_map_eq]
  exact addAll_wf _ [] ⟨List.nodup_nil, by simp⟩

theorem own_final (ts : List XcTarget) (q : String) (k : String × String) :
    OwnRec (file_targets_map ts) q k
      ↔ ∃ t ∈ ts, t.pyKey = k ∧ ∃ f ∈ t.files, f.filepath = q := by
  rw [file_targets_map_eq, addAll_own]
  constructor
  · rintro (h | h)
    · exact absurd h own_nil
    · rcases List.mem_flatMap.mp h with ⟨t, ht, hmem⟩
      rcases List.mem_map.mp hmem with ⟨f, hf, heq⟩
      have h1 : f.filepath = q := congrArg Prod.fst heq
      have h2 : t.pyKey = k := congrArg Prod.snd heq
      exact ⟨t, ht, h2, f, hf, h1⟩
  · rintro ⟨t, ht, hk, f, hf, hq⟩
    refine Or.inr (List.mem_flatMap.mpr ⟨t, ht, List.mem_map.mpr ⟨f, hf, ?_⟩⟩)
    rw [hk, hq]

theorem eq_of_key_unique :
    ∀ {m : List (String × List (String × String))}, (m.map Prod.fst).Nodup →
      ∀ {kv1 kv2 : String × List (String × String)}, kv1 ∈ m → kv2 ∈ m →
        kv1.1 = kv2.1 → kv1 = kv2 := by
  intro m
  induction m with
  | nil => intro _ _ _ h; cases h
  | cons kv m ih =>
    intro hnd kv1 kv2 h1 h2 hq
    obtain ⟨hni, hnd'⟩ := List.nodup_cons.mp hnd
    rcases List.mem_cons.mp h1 with rfl | h1'
    · rcases List.mem_cons.mp h2 with rfl | h2'
      · rfl
      · exact absurd (List.mem_map.mpr ⟨kv2, h2', hq.symm⟩) hni
    · rcases List.mem_cons.mp h2 with rfl | h2'
      · exact absurd (List.mem_map.mpr ⟨kv1, h1', hq⟩) hni
      · exact ih hnd' h1' h2' hq

theorem two_le_length_of_two_mem {α : Type} {l : List α} {a b : α}
    (ha : a ∈ l) (hb : b ∈ l) (hab : a ≠ b) : 2 ≤ l.length := by
  cases l with
  | nil => cases ha
  | cons x xs =>
    cases xs with
    | nil =>
      have ha' : a = x := List.mem_singleton.mp ha
      have hb' : b = x := List.mem_singleton.mp hb
      exact absurd (ha'.trans hb'.symm) hab
    | cons y ys => simp [List.length_cons]

theorem exists_two_of_length {α : Type} {l : List α} (hnd : l.Nodup) (hl : 2 ≤ l.length) :
    ∃ a ∈ l, ∃ b ∈ l, a ≠ b := by
  cases l with
  | nil => simp at hl
  | cons x xs =>
    cases xs with
    | nil => simp at hl
    | cons y ys =>
      obtain ⟨hni, _⟩ := List.nodup_cons.mp hnd
      refine ⟨x, List.mem_cons_self _ _, y,
        List.mem_cons_of_mem _ (List.mem_cons_self _ _), ?_⟩
      intro hxy
      exact hni (hxy ▸ List.mem_cons_self _ _)

theorem mem_shared_iff (p : XcProject) (path : String) :
    path ∈ shared_filepaths p
      ↔ ∃ kv ∈ file_targets_map p.targets, kv.1 = path ∧ 2 ≤ kv.2.length := by
  unfold shared_filepaths
  rw [mem_sortStrings]
  simp only [List.mem_map, List.mem_filter, decide_eq_true_eq]
  constructor
  · rintro ⟨kv, ⟨hkv, hlen⟩, hq⟩
    exact ⟨kv, hkv, hq, hlen⟩
  · rintro ⟨kv, hkv, hq, hlen⟩
    exact ⟨kv, ⟨hkv, hlen⟩, hq⟩

theorem ownsPath_iff_files (t : XcTarget) (path : String) :
    ownsPath t path ↔ ∃ f ∈ t.files, f.filepath = path := by
  constructor
  · rintro ⟨f, hbucket, hp⟩
    have hf : fmem f t.files = true := by
      show fmem f (funion (funion (funion t.source_files t.resource_files) t.header_files)
          t.linked_files) = true
      rw [fmem_funion, fmem_funion, fmem_funion]
      rcases hbucket with h | h | h | h <;> simp [fmem_of_mem h]
    rcases fmem_iff.mp hf with ⟨g, hg, hgp⟩
    exact ⟨g, hg, hgp.trans hp⟩
  · rintro ⟨f, hf, hp⟩
    rcases mem_of_mem_funion hf with h | h
    · rcases mem_of_mem_funion h with h' | h'
      · rcases mem_of_mem_funion h' with h2 | h2
        · exact ⟨f, Or.inl h2, hp⟩
        · exact ⟨f, Or.inr (Or.inl h2), hp⟩
      · exact ⟨f, Or.inr (Or.inr (Or.inl h')), hp⟩
    · exact ⟨f, Or.inr (Or.inr (Or.inr h)), hp⟩

/-- C8: the shared-files query reports a file path exactly when at least two
distinct targets — distinct by the `(kind, name)` identity of
`XcTarget.__eq__` — own a file with that path, ownership meaning membership in
any of the target's four file buckets. -/
theorem c8_shared_files_iff (p : XcProject) (path : String) :
    path ∈ shared_filepaths p ↔
      ∃ t1 ∈ p.targets, ∃ t2 ∈ p.targets,
        t1.pyKey ≠ t2.pyKey ∧ ownsPath t1 path ∧ ownsPath t2 path := by
  rw [mem_shared_iff]
  constructor
  · rintro ⟨kv, hkv, hq, hlen⟩
    have hwf := file_targets_map_wf p.targets
    have hvnd : kv.2.Nodup := hwf.2 kv hkv
    obtain ⟨k1, hk1, k2, hk2, hk12⟩ := exists_two_of_length hvnd hlen
    have ho1 : OwnRec (file_targets_map p.targets) path k1 := ⟨kv, hkv, hq, hk1⟩
    have ho2 : OwnRec (file_targets_map p.targets) path k2 := ⟨kv, hkv, hq, hk2⟩
    rcases (own_final p.targets path k1).mp ho1 with ⟨t1, ht1, hkey1, f1, hf1, hp1⟩
    rcases (own_final p.targets path k2).mp ho2 with ⟨t2, ht2, hkey2, f2, hf2, hp2⟩
    refine ⟨t1, ht1, t2, ht2, ?_, ?_, ?_⟩
    · rw [hkey1, hkey2]
      exact hk12
    · exact (ownsPath_iff_files t1 path).mpr ⟨f1, hf1, hp1⟩
    · exact (ownsPath_iff_files t2 path).mpr ⟨f2, hf2, hp2⟩
  · rintro ⟨t1, ht1, t2, ht2, hne, ho1, ho2⟩
    rcases (ownsPath_iff_files t1 path).mp ho1 with ⟨f1, hf1, hp1⟩
    rcases (ownsPath_iff_files t2 path).mp ho2 with ⟨f2, hf2, hp2⟩
    have hr1 : OwnRec (file_targets_map p.targets) path t1.pyKey :=
      (own_final p.targets path t1.pyKey).mpr ⟨t1, ht1, rfl, f1, hf1, hp1⟩
    have hr2 : OwnRec (file_targets_map p.targets) path t2.pyKey :=
      (own_final p.targets path t2.pyKey).mpr ⟨t2, ht2, rfl, f2, hf2, hp2⟩
    rcases hr1 with ⟨kv1, hkv1, hq1, hk1⟩
    rcases hr2 with ⟨kv2, hkv2, hq2, hk2⟩
    have hkk : kv1 = kv2 :=
      eq_of_key_unique (file_targets_map_wf p.targets).1 hkv1 hkv2 (hq1.trans hq2.symm)
    subst hkk
    exact ⟨kv1, hkv1, hq1, two_le_length_of_two_mem hk1 hk2 hne⟩

/-- C8 witness fixtures: two targets of different kinds sharing one source
file. -/
def c8SharedFile : XcFile := ⟨"Shared.swift", [], []⟩

/-- C8 witness target 1. -/
def c8Target1 : XcTarget := ⟨"App", "application", "App", [c8SharedFile], [], [], []⟩

/-- C8 witness target 2. -/
def c8Target2 : XcTarget := ⟨"Kit", "framework", "Kit", [c8SharedFile], [], [], []⟩

/-- C8 witness project. -/
def c8Project : XcProject := ⟨"/p", "P", [c8Target1, c8Target2], [], []⟩

/-- C8 witness: the query reports the shared file of the concrete project. -/
theorem c8_witness : "Shared.swift" ∈ shared_filepaths c8Project :=
  (c8_shared_files_iff c8Project "Shared.swift").mpr
    ⟨c8Target1, by decide, c8Target2, by decide, by decide,
     ⟨c8SharedFile, Or.inl (by decide), rfl⟩, ⟨c8SharedFile, Or.inl (by decide), rfl⟩⟩


end XcAnalyzer
